import Mathlib

/-!
# Verification of the welog logger core

Shallow embedding of the asynchronous log-delivery pipeline of the welog
repository (package `logger`: singleton sink, async delivery hook, health
monitor, and the size-capped overflow file), together with proofs and
refutations of the specified properties.

Bytes are modelled as `Nat` (only the values `10` = `'\n'` and `13` = `'\r'`
are ever inspected); file contents are byte lists; Go `int64` sizes are
modelled as `Nat` (all quantities involved are non-negative and far below
`2^63`, so no overflow behaviour is lost).  File-system and network I/O are
modelled as error-free state passing, but the scanner's deterministic
`bufio.ErrTooLong` failure — a consequence of the 1 MiB maximum token size
set by `newScanner`, not of the environment — is modelled explicitly:
`trimOldestLines` returns an error and leaves the file untouched when some
line reaches that bound.  Each fallible external call (client construction,
ping, URL parse, hook construction) is modelled by an `Except`-valued
environment field carrying that call's outcome.
-/

namespace Welog

abbrev Byte := Nat

/-! ## Overflow store: line splitting (bufio.Scanner with bufio.ScanLines)

`trimOldestLines` reads the fallback file through the `bufio.Scanner` built
by `newScanner`, using the default `ScanLines` split function: tokens are
the maximal `'\n'`-free chunks, the terminating newline is not part of the
token, a final chunk without a trailing newline is still returned, and a
trailing `'\r'` is dropped from each token (`dropCR`).  `newScanner` caps
the token size at 1 MiB (`scanner.Buffer(make([]byte, 0, 64*1024),
1024*1024)`); a line at or over that cap makes `Scan` fail with
`bufio.ErrTooLong`, which `trimOldestLines` detects via `scanner.Err()`. -/

/-- `dropCR` of bufio.ScanLines: drops a terminal carriage return. -/
def dropCR (l : List Byte) : List Byte :=
  if l.getLast? = some 13 then l.dropLast else l

/-- The sequence of tokens produced by repeated `Scan` with `ScanLines`,
before `dropCR` is applied to each token. -/
def splitLinesRaw : List Byte → List (List Byte)
  | [] => []
  | b :: rest =>
    if b = 10 then [] :: splitLinesRaw rest
    else
      match splitLinesRaw rest with
      | [] => [[b]]
      | l :: ls => (b :: l) :: ls

/-- The sequence of lines the scanner yields from a file's content. -/
def splitLines (content : List Byte) : List (List Byte) :=
  (splitLinesRaw content).map dropCR

/-- `writeLine` writes the line followed by a single `'\n'`. -/
def writeLine (w : List Byte) (line : List Byte) : List Byte :=
  w ++ line ++ [10]

/-- The bytes of the temporary file after writing each line with
`writeLine`, starting from an empty file. -/
def linesToBytes : List (List Byte) → List Byte
  | [] => []
  | l :: ls => l ++ 10 :: linesToBytes ls

/-- The loop of `discardUntilFreed`: scans lines accumulating `removed`
(line length plus one for the newline); as soon as `removed ≥ bytesToFree`
it writes the current line to the temporary file and returns.  The result is
the pair (lines written to the temporary file by `discardUntilFreed` itself,
lines still unread in the scanner). -/
def discardUntilFreed : List (List Byte) → Nat → Nat → List (List Byte) × List (List Byte)
  | [], _, _ => ([], [])
  | l :: rest, removed, bytesToFree =>
    let removed' := removed + (l.length + 1)
    if bytesToFree ≤ removed' then ([l], rest)
    else discardUntilFreed rest removed' bytesToFree

/-- `copyRemaining` writes every line still in the scanner to the temporary
file. -/
def copyRemaining (lines : List (List Byte)) : List (List Byte) :=
  lines

/-- The maximum token size of the scanner built by `newScanner`: the larger
of `max = 1024*1024` and the initial buffer capacity `64*1024`. -/
def maxScanTokenSize : Nat := 1024 * 1024

/-- Whether scanning the content fails with `bufio.ErrTooLong`.  `Scan`
needs a line and its terminating newline to fit inside the
`maxScanTokenSize`-byte buffer (a final unterminated line of exactly the cap
also fails, the buffer filling up before the EOF is observed), so the scan
fails exactly when some raw line is `maxScanTokenSize` bytes or longer.  The
scan loops (`discardUntilFreed`, `copyRemaining`) stop at the first failed
`Scan`, after which `trimOldestLines` finds `scanner.Err()` non-nil, so the
position of the over-long line does not matter. -/
def scanTooLong (content : List Byte) : Bool :=
  (splitLinesRaw content).any (fun l => maxScanTokenSize ≤ l.length)

/-- `trimOldestLines`: scans the file, runs `discardUntilFreed`, then
`copyRemaining`, checks `scanner.Err()`, and renames the temporary file over
the original.  On a scan failure (`scanTooLong`) the cleanup path removes
the temporary file, the rename never happens and the error is returned, so
the original file is untouched; otherwise the result is the content of the
file after the rename.  (I/O errors of the temporary file itself are not
modelled.) -/
def trimOldestLines (content : List Byte) (bytesToFree : Nat) : Except Unit (List Byte) :=
  if scanTooLong content then .error ()
  else
    let p := discardUntilFreed (splitLines content) 0 bytesToFree
    .ok (linesToBytes (p.1 ++ copyRemaining p.2))

/-! ## Overflow store: writeFallbackLog -/

/-- 1 << 30 bytes. -/
def fallbackMaxBytes : Nat := 2 ^ 30

/-- Abstraction of a `logrus.Entry` as seen by `formatEntry`: `fmtResult`
is `some d` exactly when the entry has a logger with a formatter and
`Formatter.Format` succeeds producing bytes `d`; `message` is the entry's
message field. -/
structure FEntry where
  fmtResult : Option (List Byte)
  message : List Byte
deriving DecidableEq

/-- `formatEntry`: `nil` entry renders to nothing; otherwise the formatter's
output when available, else the bare message bytes. -/
def formatEntry : Option FEntry → List Byte
  | none => []
  | some e =>
    match e.fmtResult with
    | some d => d
    | none => e.message

/-- The bytes of `fmt.Sprintf(" hook_error=%v", hookErr)`: the ASCII codes
of `" hook_error="` followed by the error's rendering. -/
def hookErrorBytes (errText : List Byte) : List Byte :=
  [32, 104, 111, 111, 107, 95, 101, 114, 114, 111, 114, 61] ++ errText

/-- `buildFallbackBytes`: renders the entry, appends the hook error when
present, returns `none` for an empty rendering, and guarantees a single
terminating newline.  (`none` models the Go `nil` slice, which has length
zero.) -/
def buildFallbackBytes (e : Option FEntry) (hookErr : Option (List Byte)) : Option (List Byte) :=
  let logBytes := formatEntry e ++ (match hookErr with
    | some t => hookErrorBytes t
    | none => [])
  if logBytes = [] then none
  else if logBytes.getLast? = some 10 then some logBytes
  else some (logBytes ++ [10])

/-- `ensureFallbackCapacity`: succeeds without change when the file plus the
new entry fits in the budget, otherwise trims the oldest lines asking to
free `currentSize + newSize - budget` bytes, propagating a trim error.
(`fileSize` is the content's length; stat errors are not modelled.) -/
def ensureFallbackCapacity (content : List Byte) (additional : Nat) :
    Except Unit (List Byte) :=
  let required := content.length + additional
  if required ≤ fallbackMaxBytes then .ok content
  else trimOldestLines content (required - fallbackMaxBytes)

/-- `writeFallbackLog` acting on the fallback file's state (`none` = file
absent).  Builds the rendered bytes; returns untouched when they are empty
or exceed the budget on their own; otherwise creates the file when missing
(`ensureFallbackFile`), frees capacity, and appends — except that a
capacity/trim error aborts before the append, leaving the (now existing)
file with its previous content.  The Go function returns nothing and
swallows every error, which the total function models. -/
def writeFallbackLog (file : Option (List Byte)) (e : Option FEntry)
    (hookErr : Option (List Byte)) : Option (List Byte) :=
  match buildFallbackBytes e hookErr with
  | none => file
  | some logBytes =>
    if fallbackMaxBytes < logBytes.length then file
    else
      let content := file.getD []
      match ensureFallbackCapacity content logBytes.length with
      | .error _ => some content
      | .ok trimmed => some (trimmed ++ logBytes)

/-! ## Delivery hook: entry duplication and Fire -/

/-- The buffer store: `bytes.Buffer` objects addressed by allocation index,
so that aliasing and later mutation of a shared buffer are expressible. -/
abbrev BufHeap := List (List Byte)

/-- A `logrus.Entry`: structured fields (`data`), timestamp, level, message,
caller metadata, and a reference (`buffer`) into the buffer store for the
shared `*bytes.Buffer`.  `loggerId`, `ctx` and `errMsg` model the `Logger`,
`Context` and `err` fields that `Entry.Dup` also carries over. -/
structure Entry where
  loggerId : Option Nat
  data : List (Nat × Nat)
  time : Nat
  ctx : Option Nat
  errMsg : Option (List Byte)
  level : Nat
  message : List Byte
  caller : Option Nat
  buffer : Option Nat
deriving DecidableEq

/-- `logrus.Entry.Dup`: a fresh entry holding the original's `Logger`, a
fresh `Data` map with equal contents, `Time`, `Context` and `err`; the
remaining fields are zero values. -/
def Entry.dup (e : Entry) : Entry :=
  { loggerId := e.loggerId, data := e.data, time := e.time, ctx := e.ctx,
    errMsg := e.errMsg, level := 0, message := [], caller := none, buffer := none }

/-- `copyBuffer`: `nil` stays `nil`; otherwise a fresh buffer (new index
`h.length`) is allocated and the original buffer's bytes are written into
it. -/
def copyBuffer (h : BufHeap) : Option Nat → BufHeap × Option Nat
  | none => (h, none)
  | some i => (h ++ [h.getD i []], some h.length)

/-- `duplicateEntry`: `Dup` plus explicit copies of `Time`, `Level`,
`Message`, `Caller`, and a deep copy of `Buffer`. -/
def duplicateEntry (h : BufHeap) (e : Entry) : BufHeap × Entry :=
  let clone := e.dup
  let p := copyBuffer h e.buffer
  (p.1, { clone with time := e.time, level := e.level, message := e.message,
                     caller := e.caller, buffer := p.2 })

/-- Capacity of the hook's buffered channel. -/
def asyncHookBufferSize : Nat := 256

/-- The state `asyncHook.Fire` can reach: the buffered channel's pending
entries (front = oldest), the buffer store, and the fallback file (which
`Fire` never touches). -/
structure HookSys where
  queue : List Entry
  heap : BufHeap
  fallbackFile : Option (List Byte)
deriving DecidableEq

/-- `asyncHook.Fire`: duplicates the entry, then a non-blocking channel send
(`select` with `default`): the copy is enqueued when the channel has free
space and silently dropped otherwise; the method always returns `nil`
(modelled as the `Option` error component being `none`). -/
def fire (s : HookSys) (e : Entry) : HookSys × Option (List Byte) :=
  let p := duplicateEntry s.heap e
  if s.queue.length < asyncHookBufferSize then
    ({ s with queue := s.queue ++ [p.2], heap := p.1 }, none)
  else
    ({ s with heap := p.1 }, none)

/-! ## Delivery hook: producer/consumer trace semantics

`newAsyncHook` starts exactly one `worker` goroutine ranging over the
buffered channel, so there is a single consumer; producers are the `Fire`
calls.  A Go buffered channel delivers values in FIFO order.  The trace
records, per hook instance, the successfully enqueued entries in arrival
order and the entries the worker has popped and handed to the wrapped
hook's `Fire` (the backend delivery attempt), in pop order. -/

structure QueueTrace where
  queue : List Entry
  enqueued : List Entry
  attempted : List Entry
deriving DecidableEq

inductive HookEvent where
  | fireEv (e : Entry)
  | deliverEv
deriving DecidableEq

/-- One atomic event: a producer's channel send (dropping when full), or the
single worker receiving the oldest entry and attempting backend delivery. -/
def hookStep (s : QueueTrace) : HookEvent → QueueTrace
  | .fireEv e =>
    if s.queue.length < asyncHookBufferSize then
      { s with queue := s.queue ++ [e], enqueued := s.enqueued ++ [e] }
    else s
  | .deliverEv =>
    match s.queue with
    | [] => s
    | e :: rest => { s with queue := rest, attempted := s.attempted ++ [e] }

/-- A hook instance's history from its creation (empty channel), under an
arbitrary interleaving of producer and consumer events. -/
def hookRun (evs : List HookEvent) : QueueTrace :=
  evs.foldl hookStep { queue := [], enqueued := [], attempted := [] }

/-! ## Singleton accessor `Logger`

`once.Do` guarantees the initialization closure runs at most once across all
callers, and every `Logger` call additionally takes `mutex` before reading
`instance`, so calls are serialized; the model therefore treats each call as
atomic.  The state records whether the `sync.Once` has fired, the published
instance, and ghost counters for how many times `logger()` ran and how many
`monitorConnection` goroutines were started. -/

structure SinkOnce where
  done : Bool
  inst : Option Nat
  initCount : Nat
  monitorCount : Nat
deriving DecidableEq

/-- Process start: `once` not fired, no instance, no side effects yet. -/
def sinkStart : SinkOnce :=
  { done := false, inst := none, initCount := 0, monitorCount := 0 }

/-- One call of `Logger`: on the first call the closure builds the instance
(`logger()`) and starts the monitor goroutine; afterwards the stored
instance is returned unchanged.  `build` is the instance `logger()` would
construct. -/
def Logger (build : Nat) (s : SinkOnce) : SinkOnce × Option Nat :=
  if s.done then (s, s.inst)
  else ({ done := true, inst := some build, initCount := s.initCount + 1,
          monitorCount := s.monitorCount + 1 }, some build)

/-- `n` successive `Logger` calls, returning the final state and the list of
returned instances (in call order). -/
def LoggerCalls (build : Nat) : Nat → SinkOnce → SinkOnce × List (Option Nat)
  | 0, s => (s, [])
  | n + 1, s =>
    let p := Logger build s
    let q := LoggerCalls build n p.1
    (q.1, p.2 :: q.2)

/-! ## Health monitor: reinitializeLogger and the tick loop

The fallible external calls of one `reinitializeLogger` run are modelled by
an environment of `Except` outcomes: `elasticsearch.NewClient`,
`client.Ping`, `url.Parse`, and `elogrus.NewElasticHookWithFunc`. -/

structure ReinitEnv where
  elasticURL : List Byte
  newClient : Except (List Byte) Nat
  ping : Except (List Byte) Unit
  parseHost : Except (List Byte) (List Byte)
  newHook : Except (List Byte) Nat

/-- The sink state `reinitializeLogger` mutates: the package-level `client`
and the logger's attached hooks. -/
structure SinkConn where
  client : Option Nat
  hooks : List Nat
deriving DecidableEq

/-- `reinitializeLogger`: returns with the state untouched when the URL is
unset, client construction fails, or the ping fails; on ping success it
installs the new client and clears the hooks (`ReplaceHooks` with an empty
map), then attaches the fresh async hook unless URL parsing or hook
construction fails. -/
def reinitializeLogger (env : ReinitEnv) (s : SinkConn) : SinkConn :=
  if env.elasticURL = [] then s
  else
    match env.newClient with
    | .error _ => s
    | .ok c =>
      match env.ping with
      | .error _ => s
      | .ok _ =>
        match env.parseHost with
        | .error _ => { client := some c, hooks := [] }
        | .ok _ =>
          match env.newHook with
          | .error _ => { client := some c, hooks := [] }
          | .ok hk => { client := some c, hooks := [hk] }

/-- Environment of one `monitorConnection` tick: the outcome of the liveness
ping on the current client (when one is attached) and the environment a
`reinitializeLogger` run would see. -/
structure TickEnv where
  livePing : Bool
  reinit : ReinitEnv

/-- One iteration of the `monitorConnection` ticker loop, with a ghost
counter of how many `reinitializeLogger` attempts have been made: when a
client is attached and its ping succeeds, nothing happens; otherwise
`reinitializeLogger` runs. -/
def monitorTick (env : TickEnv) : SinkConn × Nat → SinkConn × Nat
  | (s, attempts) =>
    match s.client with
    | some _ =>
      if env.livePing then (s, attempts)
      else (reinitializeLogger env.reinit s, attempts + 1)
    | none => (reinitializeLogger env.reinit s, attempts + 1)

/-! ## Initial build `logger()` -/

/-- Environment of one `logger()` build: the backend address (empty list for
an unset variable) and the outcomes of the fallible external calls. -/
structure BuildEnv where
  elasticURL : List Byte
  clientResult : Except (List Byte) Nat
  pingResult : Except (List Byte) Unit
  parseResult : Except (List Byte) (List Byte)
  hookResult : Except (List Byte) Nat

/-- ASCII bytes of the message `ElasticURL is not set`. -/
def msgURLUnset : List Byte :=
  [69, 108, 97, 115, 116, 105, 99, 85, 82, 76, 32, 105, 115, 32, 110, 111, 116, 32, 115, 101, 116]

/-- The logger instance `logger()` returns: formatter configuration, caller
reporting, attached hooks, and the entries written to the process-local
output (where `Error`/`Warn` diagnostics and formatter-only logging land). -/
structure LoggerState where
  ecsFormatter : Bool
  reportCaller : Bool
  hooks : List Nat
  localOutput : List (List Byte)
deriving DecidableEq

/-- `logger()`: always constructs a new instance with the ECS formatter and
caller reporting; when the backend address is unset it records the
diagnostic and returns the instance with no hook attached.  Every failure
path returns the instance (the function is total — no `Fatal`/`os.Exit` is
reachable, modelling that the process is never terminated); only when every
external call succeeds is the async hook attached. -/
def logger (env : BuildEnv) : LoggerState :=
  let base : LoggerState :=
    { ecsFormatter := true, reportCaller := true, hooks := [], localOutput := [] }
  if env.elasticURL = [] then
    { base with localOutput := base.localOutput ++ [msgURLUnset] }
  else
    match env.clientResult with
    | .error m => { base with localOutput := base.localOutput ++ [m] }
    | .ok _ =>
      match env.pingResult with
      | .error m => { base with localOutput := base.localOutput ++ [m] }
      | .ok _ =>
        match env.parseResult with
        | .error m => { base with localOutput := base.localOutput ++ [m] }
        | .ok _ =>
          match env.hookResult with
          | .error m => { base with localOutput := base.localOutput ++ [m] }
          | .ok hk => { base with hooks := [hk] }

/-- A `log()` call on an instance: the entry is formatted to the
process-local output and handed to each attached hook; the returned list is
the hooks the entry was handed to ( `[]` = formatter-only). -/
def logCall (lg : LoggerState) (msg : List Byte) : LoggerState × List Nat :=
  ({ lg with localOutput := lg.localOutput ++ [msg] }, lg.hooks)

/-! ## Concrete inputs used by counterexamples and witnesses -/

/-- `n` copies of the two-byte newline-terminated line `a\n`. -/
def repLines : Nat → List Byte
  | 0 => []
  | n + 1 => 97 :: 10 :: repLines n

/-- A fallback file of exactly `fallbackMaxBytes` bytes made of `2^29`
complete two-byte lines, each a single `a` — every line far below the
scanner's token cap. -/
def manyLines : List Byte := repLines (2 ^ 29)

/-- An entry whose formatter output is the two bytes `b\n`. -/
def smallEntry : FEntry := { fmtResult := some [98, 10], message := [] }

/-- An entry whose formatter output is one byte over the budget (already
newline-terminated). -/
def hugeEntry : FEntry :=
  { fmtResult := some (List.replicate fallbackMaxBytes 97 ++ [10]), message := [] }

/-- A reinitialization environment with the backend address unset. -/
def reinitEnvUnset : ReinitEnv :=
  { elasticURL := [], newClient := .ok 0, ping := .ok (), parseHost := .ok [],
    newHook := .ok 0 }

/-- A build environment with the backend address unset. -/
def buildEnvUnset : BuildEnv :=
  { elasticURL := [], clientResult := .ok 0, pingResult := .ok (), parseResult := .ok [],
    hookResult := .ok 0 }

/-- A concrete entry holding a reference to buffer 0. -/
def entry0 : Entry :=
  { loggerId := some 0, data := [(1, 2)], time := 3, ctx := none, errMsg := none,
    level := 4, message := [5], caller := some 6, buffer := some 0 }

/-! ## Supporting lemmas -/

lemma splitLinesRaw_repLines (n : Nat) :
    splitLinesRaw (repLines n) = List.replicate n [97] := by
  induction n with
  | zero => rfl
  | succ k ih =>
    show splitLinesRaw (97 :: 10 :: repLines k) = _
    simp [splitLinesRaw, ih, List.replicate_succ]

lemma repLines_length (n : Nat) : (repLines n).length = 2 * n := by
  induction n with
  | zero => rfl
  | succ k ih =>
    show ((97 : Byte) :: 10 :: repLines k).length = 2 * (k + 1)
    simp only [List.length_cons, ih]
    omega

lemma scanTooLong_repLines (n : Nat) : scanTooLong (repLines n) = false := by
  unfold scanTooLong
  rw [splitLinesRaw_repLines]
  induction n with
  | zero => rfl
  | succ k ih =>
    rw [List.replicate_succ, List.any_cons, ih]
    decide

lemma splitLines_repLines (n : Nat) : splitLines (repLines n) = List.replicate n [97] := by
  unfold splitLines
  rw [splitLinesRaw_repLines, List.map_replicate,
    show dropCR [97] = ([97] : List Byte) from by decide]

lemma linesToBytes_replicate97 (n : Nat) :
    linesToBytes (List.replicate n [97]) = repLines n := by
  induction n with
  | zero => rfl
  | succ k ih =>
    rw [List.replicate_succ]
    show [97] ++ 10 :: linesToBytes (List.replicate k [97]) = repLines (k + 1)
    rw [ih]
    rfl

lemma trimOldestLines_repLines (k : Nat) :
    trimOldestLines (repLines (k + 1)) 2 = .ok (repLines (k + 1)) := by
  have hd : discardUntilFreed (List.replicate (k + 1) [97]) 0 2
      = ([[97]], List.replicate k [97]) := by
    rw [List.replicate_succ]
    simp only [discardUntilFreed]
    rw [if_pos (by decide : (2 : Nat) ≤ 0 + (List.length [97] + 1))]
  unfold trimOldestLines
  rw [scanTooLong_repLines, if_neg (by decide : ¬ (false = true)),
    splitLines_repLines, hd]
  show Except.ok (linesToBytes (List.replicate (k + 1) [97]))
    = Except.ok (repLines (k + 1))
  rw [linesToBytes_replicate97]

lemma getD_append_length : ∀ (h : BufHeap) (x : List Byte),
    (h ++ [x]).getD h.length [] = x
  | [], _ => rfl
  | y :: t, x => by
    show (y :: (t ++ [x])).getD (t.length + 1) [] = x
    rw [List.getD_cons_succ]
    exact getD_append_length t x

lemma buildFallbackBytes_newline (e : Option FEntry) (hookErr : Option (List Byte)) :
    buildFallbackBytes e hookErr = none ∨
      ∃ lb, buildFallbackBytes e hookErr = some lb ∧ lb.getLast? = some 10 := by
  have key : ∀ bs : List Byte,
      (if bs = [] then none else if bs.getLast? = some 10 then some bs
        else some (bs ++ [10])) = (none : Option (List Byte)) ∨
      ∃ lb, (if bs = [] then none else if bs.getLast? = some 10 then some bs
        else some (bs ++ [10])) = some lb ∧ lb.getLast? = some 10 := by
    intro bs
    split_ifs with h0 h10
    · exact Or.inl rfl
    · exact Or.inr ⟨bs, rfl, h10⟩
    · exact Or.inr ⟨bs ++ [10], rfl, List.getLast?_concat _⟩
  exact key (formatEntry e ++ (match hookErr with
    | some t => hookErrorBytes t
    | none => []))

lemma discardUntilFreed_parts :
    ∀ (lines : List (List Byte)) (removed bytesToFree : Nat), ∃ pre,
      pre ++ ((discardUntilFreed lines removed bytesToFree).1
        ++ (discardUntilFreed lines removed bytesToFree).2) = lines := by
  intro lines
  induction lines with
  | nil => intro r n; exact ⟨[], rfl⟩
  | cons l rest ih =>
    intro r n
    by_cases h : n ≤ r + (l.length + 1)
    · refine ⟨[], ?_⟩
      simp only [discardUntilFreed, if_pos h]
      rfl
    · obtain ⟨pre, hp⟩ := ih (r + (l.length + 1)) n
      refine ⟨l :: pre, ?_⟩
      simp only [discardUntilFreed, if_neg h]
      rw [List.cons_append, hp]

lemma writeFallbackLog_eq_of_fits (file : Option (List Byte)) (e : Option FEntry)
    (hookErr : Option (List Byte)) (lb : List Byte)
    (hlb : buildFallbackBytes e hookErr = some lb)
    (hsz : ¬ fallbackMaxBytes < lb.length) :
    writeFallbackLog file e hookErr
      = match ensureFallbackCapacity (file.getD []) lb.length with
        | .error _ => some (file.getD [])
        | .ok trimmed => some (trimmed ++ lb) := by
  unfold writeFallbackLog
  rw [hlb]
  exact if_neg hsz

lemma buildFallbackBytes_fmt (d m : List Byte) :
    buildFallbackBytes (some ⟨some d, m⟩) none =
      (if d = [] then none else if d.getLast? = some 10 then some d
        else some (d ++ [10])) := by
  simp only [buildFallbackBytes, formatEntry, List.append_nil]

end Welog

namespace Welog

/-- Claim C1 (code bug): with the overflow file holding the three
newline-terminated lines `a`, `b`, `c` and a trim request to free
`len(L1) + 1 = 2` bytes, the code completes the trim without error but
leaves the file unchanged — it does not produce `[L2, L3]` as the
specification states — because `discardUntilFreed` writes the
threshold-crossing line back into the temporary file instead of discarding
it. -/
theorem trimOldestLines_keeps_crossing_line :
    trimOldestLines [97, 10, 98, 10, 99, 10] 2 = .ok [97, 10, 98, 10, 99, 10] ∧
    trimOldestLines [97, 10, 98, 10, 99, 10] 2 ≠ .ok [98, 10, 99, 10] := by
  refine ⟨rfl, ?_⟩
  intro hcontra
  rw [show trimOldestLines [97, 10, 98, 10, 99, 10] 2
      = Except.ok [97, 10, 98, 10, 99, 10] from rfl] at hcontra
  exact absurd (Except.ok.inj hcontra) (by decide)

/-- Claim C2 (code bug): a persist of a 2-byte rendered entry into a full
overflow file — exactly `fallbackMaxBytes` bytes made of `2^29` two-byte
lines, every line far below the scanner's token cap, so the trim scan
succeeds — appends the entry after a trim that freed nothing (the
threshold-crossing first line is written back), so the resulting file
measures `fallbackMaxBytes + 2` bytes, exceeding the budget the claim says
is never exceeded. -/
theorem writeFallbackLog_exceeds_budget :
    writeFallbackLog (some manyLines) (some smallEntry) none
      = some (manyLines ++ [98, 10]) ∧
    fallbackMaxBytes
      < ((writeFallbackLog (some manyLines) (some smallEntry) none).getD []).length := by
  have hlen : manyLines.length = fallbackMaxBytes := by
    rw [manyLines, repLines_length]
    norm_num [fallbackMaxBytes]
  have htrim : trimOldestLines manyLines 2 = .ok manyLines := by
    have h29 : (2 : Nat) ^ 29 = (2 ^ 29 - 1) + 1 := by norm_num
    rw [manyLines, h29]
    exact trimOldestLines_repLines (2 ^ 29 - 1)
  have hgt : ¬ (manyLines.length + 2 ≤ fallbackMaxBytes) := by
    rw [hlen]; omega
  have h2s : manyLines.length + 2 - fallbackMaxBytes = 2 := by
    rw [hlen]; omega
  have hcap : ensureFallbackCapacity manyLines 2 = .ok manyLines := by
    show (if manyLines.length + 2 ≤ fallbackMaxBytes then Except.ok manyLines
      else trimOldestLines manyLines (manyLines.length + 2 - fallbackMaxBytes))
        = .ok manyLines
    rw [if_neg hgt, h2s, htrim]
  have hsz : ¬ (fallbackMaxBytes < ([98, 10] : List Byte).length) := by decide
  have hb : buildFallbackBytes (some smallEntry) none = some [98, 10] := by decide
  have hmain : writeFallbackLog (some manyLines) (some smallEntry) none
      = some (manyLines ++ [98, 10]) := by
    rw [writeFallbackLog_eq_of_fits (some manyLines) (some smallEntry) none [98, 10] hb hsz]
    rw [show ((some manyLines).getD [] : List Byte) = manyLines from rfl]
    rw [show (([98, 10] : List Byte).length) = 2 from rfl]
    rw [hcap]
  refine ⟨hmain, ?_⟩
  rw [hmain]
  show fallbackMaxBytes < (manyLines ++ [98, 10]).length
  rw [List.length_append, hlen]
  show fallbackMaxBytes < fallbackMaxBytes + 2
  omega

/-- Claim C3: for every entry handed to the hook's enqueue operation,
`asyncHook.Fire` returns without error in all cases: when the bounded queue
(capacity 256) has free space the entry copy is pushed at the back, when it
is full the entry is dropped with the queue unchanged, the overflow file is
never written, and the queue never grows past its capacity. -/
theorem fire_never_errors (s : HookSys) (e : Entry) :
    (fire s e).2 = none ∧
    (fire s e).1.fallbackFile = s.fallbackFile ∧
    (fire s e).1.queue =
      (if s.queue.length < asyncHookBufferSize
        then s.queue ++ [(duplicateEntry s.heap e).2] else s.queue) ∧
    (fire s e).1.queue.length ≤ max s.queue.length asyncHookBufferSize := by
  by_cases h : s.queue.length < asyncHookBufferSize
  · refine ⟨by simp [fire, h], by simp [fire, h], by simp [fire, h], ?_⟩
    simp [fire, h]
    omega
  · exact ⟨by simp [fire, h], by simp [fire, h], by simp [fire, h], by simp [fire, h]⟩

/-- Claim C7: a persist call whose single rendered entry is larger than the
total byte budget performs no file write of any kind: `writeFallbackLog`
leaves the overflow file state exactly as it was (the modelled function is
total, so no error is raised either). -/
theorem writeFallbackLog_oversized_noop (file : Option (List Byte)) (e : Option FEntry)
    (hookErr : Option (List Byte)) (lb : List Byte)
    (h1 : buildFallbackBytes e hookErr = some lb)
    (h2 : fallbackMaxBytes < lb.length) :
    writeFallbackLog file e hookErr = file := by
  unfold writeFallbackLog
  rw [h1]
  simp only [if_pos h2]

/-- Witness for claim C7 at an entry rendering to `fallbackMaxBytes + 1`
bytes, with the overflow file holding one line. -/
theorem writeFallbackLog_oversized_noop_witness :
    writeFallbackLog (some [97, 10]) (some hugeEntry) none = some [97, 10] := by
  refine writeFallbackLog_oversized_noop _ _ _
    (List.replicate fallbackMaxBytes 97 ++ [10]) ?_ ?_
  · have hne : List.replicate fallbackMaxBytes 97 ++ [10] ≠ ([] : List Byte) := by
      intro hcon
      simp at hcon
    rw [hugeEntry, buildFallbackBytes_fmt, if_neg hne, if_pos (List.getLast?_concat _)]
  · rw [List.length_append, List.length_replicate]
    show fallbackMaxBytes < fallbackMaxBytes + 1
    omega

/-- Claim C4: calling the singleton accessor any number of times (the
`once`/`mutex` pair serializes calls, so a sequence of atomic calls models
the concurrent case) yields the same logger instance on every call, and the
initialization sequence — building the instance and starting the health
monitor — runs exactly once, on the first call. -/
theorem Logger_initializes_once (build n : Nat) (h : 0 < n) :
    (LoggerCalls build n sinkStart).1.initCount = 1 ∧
    (LoggerCalls build n sinkStart).1.monitorCount = 1 ∧
    (LoggerCalls build n sinkStart).2 = List.replicate n (some build) := by
  obtain ⟨m, rfl⟩ : ∃ m, n = m + 1 := ⟨n - 1, by omega⟩
  have hfix : ∀ k, LoggerCalls build k
      { done := true, inst := some build, initCount := 1, monitorCount := 1 }
      = ({ done := true, inst := some build, initCount := 1, monitorCount := 1 },
         List.replicate k (some build)) := by
    intro k
    induction k with
    | zero => rfl
    | succ j ih => simp [LoggerCalls, Logger, ih, List.replicate_succ]
  simp [LoggerCalls, Logger, sinkStart, hfix, List.replicate_succ]

/-- Witness for claim C4 at three calls. -/
theorem Logger_initializes_once_witness :
    (0 : Nat) < 3 ∧
    ((LoggerCalls 5 3 sinkStart).1.initCount = 1 ∧
     (LoggerCalls 5 3 sinkStart).1.monitorCount = 1 ∧
     (LoggerCalls 5 3 sinkStart).2 = List.replicate 3 (some 5)) :=
  ⟨by decide, Logger_initializes_once 5 3 (by decide)⟩

/-- Claim C5: a rebuild attempt that fails at the backend-address check, at
client construction, or at the reachability ping leaves the sink's client
and hooks exactly as they were, and a monitor tick taken while the backend
is unhealthy performs another rebuild attempt (the attempt counter grows)
that again leaves the state unchanged. -/
theorem reinitializeLogger_failure_retains (env : ReinitEnv) (s : SinkConn) (k : Nat)
    (h : env.elasticURL = [] ∨ (∃ m, env.newClient = .error m) ∨
      (∃ m, env.ping = .error m)) :
    reinitializeLogger env s = s ∧
    (∀ t : TickEnv, t.reinit = env → t.livePing = false →
      monitorTick t (s, k) = (s, k + 1)) := by
  have hre : reinitializeLogger env s = s := by
    rcases h with h | ⟨m, hm⟩ | ⟨m, hm⟩
    · simp [reinitializeLogger, h]
    · by_cases hu : env.elasticURL = []
      · simp [reinitializeLogger, hu]
      · simp [reinitializeLogger, hu, hm]
    · by_cases hu : env.elasticURL = []
      · simp [reinitializeLogger, hu]
      · cases hc : env.newClient with
        | error m2 => simp [reinitializeLogger, hu, hc]
        | ok c => simp [reinitializeLogger, hu, hc, hm]
  refine ⟨hre, ?_⟩
  intro t ht hlp
  cases hcl : s.client with
  | none => simp [monitorTick, hcl, ht, hre]
  | some c => simp [monitorTick, hcl, hlp, ht, hre]

/-- Witness for claim C5 with the backend address unset and a client
attached. -/
theorem reinitializeLogger_failure_retains_witness :
    reinitializeLogger reinitEnvUnset { client := some 7, hooks := [3] }
      = { client := some 7, hooks := [3] } ∧
    monitorTick { livePing := false, reinit := reinitEnvUnset }
      ({ client := some 7, hooks := [3] }, 0) = ({ client := some 7, hooks := [3] }, 1) := by
  have H := reinitializeLogger_failure_retains reinitEnvUnset
    { client := some 7, hooks := [3] } 0 (Or.inl rfl)
  exact ⟨H.1, H.2 { livePing := false, reinit := reinitEnvUnset } rfl rfl⟩

/-- Claim C6: along any interleaving of producer enqueues and the single
worker's dequeues, the worker hands entries to the backend in exactly the
order in which they were successfully enqueued: the attempted deliveries
followed by the still-queued entries always equal the successfully enqueued
sequence, so deliveries form a prefix of the arrival order. -/
theorem hookRun_fifo (evs : List HookEvent) :
    (hookRun evs).attempted ++ (hookRun evs).queue = (hookRun evs).enqueued ∧
    ∃ rest, (hookRun evs).attempted ++ rest = (hookRun evs).enqueued := by
  have step : ∀ (s : QueueTrace) (ev : HookEvent),
      s.attempted ++ s.queue = s.enqueued →
      (hookStep s ev).attempted ++ (hookStep s ev).queue = (hookStep s ev).enqueued := by
    intro s ev hs
    cases ev with
    | fireEv e =>
      by_cases hq : s.queue.length < asyncHookBufferSize
      · simp only [hookStep, if_pos hq]
        rw [← List.append_assoc, hs]
      · simpa only [hookStep, if_neg hq] using hs
    | deliverEv =>
      cases hcq : s.queue with
      | nil => simpa [hookStep, hcq] using hs
      | cons e rest =>
        simp only [hookStep, hcq]
        rw [List.append_assoc, List.singleton_append, ← hcq, hs]
  have main : ∀ (l : List HookEvent) (s : QueueTrace),
      s.attempted ++ s.queue = s.enqueued →
      (l.foldl hookStep s).attempted ++ (l.foldl hookStep s).queue
        = (l.foldl hookStep s).enqueued := by
    intro l
    induction l with
    | nil => intro s hs; simpa using hs
    | cons ev rest ih => intro s hs; exact ih _ (step s ev hs)
  have h := main evs { queue := [], enqueued := [], attempted := [] } rfl
  exact ⟨h, (hookRun evs).queue, h⟩

/-- Claim C8: the copy enqueued by the hook preserves the original entry's
timestamp, level, message, caller metadata and structured fields, and its
buffer is a freshly allocated buffer with equal contents, so mutating the
original's buffer afterwards leaves the copy's contents untouched. -/
theorem duplicateEntry_independent (h : BufHeap) (e : Entry) :
    (duplicateEntry h e).2.time = e.time ∧
    (duplicateEntry h e).2.level = e.level ∧
    (duplicateEntry h e).2.message = e.message ∧
    (duplicateEntry h e).2.caller = e.caller ∧
    (duplicateEntry h e).2.data = e.data ∧
    (e.buffer = none → (duplicateEntry h e).2.buffer = none) ∧
    (∀ i, e.buffer = some i → i < h.length →
      ∃ j, (duplicateEntry h e).2.buffer = some j ∧ j ≠ i ∧
        (duplicateEntry h e).1.getD j [] = h.getD i [] ∧
        ∀ bs, ((duplicateEntry h e).1.set i bs).getD j [] = h.getD i []) := by
  refine ⟨rfl, rfl, rfl, rfl, rfl, ?_, ?_⟩
  · intro hb
    show (copyBuffer h e.buffer).2 = none
    rw [hb]
    rfl
  · intro i hb hi
    refine ⟨h.length, ?_, by omega, ?_, ?_⟩
    · show (copyBuffer h e.buffer).2 = some h.length
      rw [hb]
      rfl
    · show (copyBuffer h e.buffer).1.getD h.length [] = h.getD i []
      rw [hb]
      exact getD_append_length h (h.getD i [])
    · intro bs
      show ((copyBuffer h e.buffer).1.set i bs).getD h.length [] = h.getD i []
      rw [hb]
      show ((h ++ [h.getD i []]).set i bs).getD h.length [] = h.getD i []
      rw [List.set_append_left _ _ hi]
      have hl : (h.set i bs).length = h.length := List.length_set h i bs
      rw [← hl]
      exact getD_append_length (h.set i bs) (h.getD i [])

/-- Witness for claim C8 at a one-buffer heap and an entry referencing
buffer 0. -/
theorem duplicateEntry_independent_witness :
    entry0.buffer = some 0 ∧ 0 < ([[1, 2]] : BufHeap).length ∧
    ∃ j, (duplicateEntry [[1, 2]] entry0).2.buffer = some j ∧ j ≠ 0 ∧
      (duplicateEntry [[1, 2]] entry0).1.getD j [] = ([[1, 2]] : BufHeap).getD 0 [] ∧
      ∀ bs, ((duplicateEntry [[1, 2]] entry0).1.set 0 bs).getD j []
        = ([[1, 2]] : BufHeap).getD 0 [] :=
  ⟨rfl, by decide,
    (duplicateEntry_independent [[1, 2]] entry0).2.2.2.2.2.2 0 rfl (by decide)⟩

/-- Claim C9: with the backend address unset, the initial build returns a
usable logger with no hook attached (and, being a total function, never
terminates the process), and a subsequent log call succeeds using local
formatting only: it reaches no hook and lands in the process-local
output. -/
theorem logger_no_backend_formatter_only (env : BuildEnv) (msg : List Byte)
    (h : env.elasticURL = []) :
    (logger env).hooks = [] ∧
    (logCall (logger env) msg).2 = [] ∧
    (logCall (logger env) msg).1.localOutput = (logger env).localOutput ++ [msg] := by
  refine ⟨?_, ?_, rfl⟩
  · simp [logger, h]
  · show (logger env).hooks = []
    simp [logger, h]

/-- Witness for claim C9 at an unset address and the message `hi`. -/
theorem logger_no_backend_formatter_only_witness :
    buildEnvUnset.elasticURL = [] ∧
    ((logger buildEnvUnset).hooks = [] ∧
     (logCall (logger buildEnvUnset) [104, 105]).2 = [] ∧
     (logCall (logger buildEnvUnset) [104, 105]).1.localOutput
        = (logger buildEnvUnset).localOutput ++ [[104, 105]]) :=
  ⟨rfl, logger_no_backend_formatter_only buildEnvUnset [104, 105] rfl⟩

/-- Claim C10: every record the persist path appends ends with exactly one
terminating newline: `buildFallbackBytes` returns nothing or a byte list
whose last byte is the newline; trimming either aborts on a scan error
(leaving the file untouched) or rewrites a tail segment of the file's
complete lines, each re-terminated with a newline; and `writeFallbackLog`
keeps the file a sequence of complete newline-terminated lines (empty, or
ending in a newline). -/
theorem fallback_file_line_atomic (e : Option FEntry) (hookErr : Option (List Byte))
    (file : Option (List Byte)) (content : List Byte) (n : Nat) :
    (buildFallbackBytes e hookErr = none ∨
      ∃ lb, buildFallbackBytes e hookErr = some lb ∧ lb.getLast? = some 10) ∧
    ((∃ pre ls, pre ++ ls = splitLines content ∧
        trimOldestLines content n = .ok (linesToBytes ls)) ∨
      trimOldestLines content n = .error ()) ∧
    ((file.getD [] = [] ∨ (file.getD []).getLast? = some 10) →
      ((writeFallbackLog file e hookErr).getD [] = [] ∨
        ((writeFallbackLog file e hookErr).getD []).getLast? = some 10)) := by
  refine ⟨buildFallbackBytes_newline e hookErr, ?_, ?_⟩
  · by_cases hs : scanTooLong content = true
    · right
      unfold trimOldestLines
      rw [if_pos hs]
    · left
      obtain ⟨pre, hp⟩ := discardUntilFreed_parts (splitLines content) 0 n
      refine ⟨pre, _, hp, ?_⟩
      unfold trimOldestLines
      rw [if_neg hs]
      rfl
  · intro hfile
    rcases buildFallbackBytes_newline e hookErr with hn | ⟨lb, hlb, h10⟩
    · have hw : writeFallbackLog file e hookErr = file := by
        unfold writeFallbackLog
        rw [hn]
      rw [hw]
      exact hfile
    · by_cases hsz : fallbackMaxBytes < lb.length
      · have hw : writeFallbackLog file e hookErr = file := by
          unfold writeFallbackLog
          rw [hlb]
          exact if_pos hsz
        rw [hw]
        exact hfile
      · cases hcap : ensureFallbackCapacity (file.getD []) lb.length with
        | error u =>
          rw [writeFallbackLog_eq_of_fits file e hookErr lb hlb hsz, hcap]
          show file.getD [] = [] ∨ (file.getD []).getLast? = some 10
          exact hfile
        | ok trimmed =>
          rw [writeFallbackLog_eq_of_fits file e hookErr lb hlb hsz, hcap]
          right
          show (trimmed ++ lb).getLast? = some 10
          have hne : lb ≠ [] := by
            intro hc
            rw [hc] at h10
            simp at h10
          rw [List.getLast?_append_of_ne_nil _ hne]
          exact h10

/-- Witness for claim C10 at an absent fallback entry and an empty file. -/
theorem fallback_file_line_atomic_witness :
    (writeFallbackLog (some []) none none).getD [] = [] ∨
      ((writeFallbackLog (some []) none none).getD []).getLast? = some 10 :=
  (fallback_file_line_atomic none none (some []) [] 0).2.2 (Or.inl rfl)

end Welog
